import Mathlib

/-!
Verification of the Nesterov accelerated gradient descent minimizer
(notebook `02-nesterov-minimization.ipynb`).

The notebook builds an OpenMM `CustomIntegrator` whose per-step program is

  addComputeGlobal a_cur  0.5*(1+sqrt(1+(4*a_old*a_old)))
  addComputeGlobal a_old  a_cur
  addComputePerDof y_cur  x + dt*f
  addComputePerDof y_old  y_cur
  addComputePerDof x      y_cur + (a_old - 1) / a_cur * (y_cur - y_old)

We embed the integrator state shallowly: the two global scalars are reals,
the per-DOF variables are functions from an index type of degrees of
freedom to the reals (each per-DOF computation acts componentwise, exactly
as OpenMM applies the same expression to every degree of freedom).  The
force evaluator is a function from positions to per-DOF forces.
-/

/-- The mutable state of the custom integrator: global scalars `a_cur`,
`a_old` and per-DOF buffers `x` (positions), `y_cur`, `y_old`, over an
index type `ι` of degrees of freedom. -/
structure IntegratorState (ι : Type) where
  a_cur : ℝ
  a_old : ℝ
  x : ι → ℝ
  y_cur : ι → ℝ
  y_old : ι → ℝ

/-- The momentum-coefficient map from the code line
`addComputeGlobal('a_cur', '0.5*(1+sqrt(1+(4*a_old*a_old)))')`. -/
noncomputable def nesterovA (a : ℝ) : ℝ := 0.5 * (1 + Real.sqrt (1 + 4 * a * a))

/-- One step of the notebook's `CustomIntegrator`, with the five
computations performed in the source order: each assignment reads the
values left by the assignments before it.  In particular the final `x`
update reads `a_old` and `y_old` AFTER they were overwritten in the
second and fourth computations. -/
noncomputable def nesterovStep {ι : Type} (dt : ℝ) (force : (ι → ℝ) → ι → ℝ)
    (s : IntegratorState ι) : IntegratorState ι :=
  let a_cur := nesterovA s.a_old
  let a_old := a_cur
  let y_cur := fun i => s.x i + dt * force s.x i
  let y_old := y_cur
  let x := fun i => y_cur i + (a_old - 1) / a_cur * (y_cur i - y_old i)
  ⟨a_cur, a_old, x, y_cur, y_old⟩

/-- Embedding of `integrator.step(n)`: `n` sequential steps of the integrator. -/
noncomputable def nesterovStepN {ι : Type} (dt : ℝ) (force : (ι → ℝ) → ι → ℝ) :
    ℕ → IntegratorState ι → IntegratorState ι
  | 0, s => s
  | n + 1, s => nesterovStepN dt force n (nesterovStep dt force s)

/-- Embedding of `NesterovMinimizer.minimize`: the body is
`self.context.getIntegrator().step(self.numIterations)`; it performs the
iteration budget and nothing else (no reset, no convergence check). -/
noncomputable def nesterovMinimize {ι : Type} (dt : ℝ) (force : (ι → ℝ) → ι → ℝ)
    (numIterations : ℕ) (s : IntegratorState ι) : IntegratorState ι :=
  nesterovStepN dt force numIterations s

/-- Embedding of `NesterovMinimizer.__init__`: `addGlobalVariable('a_cur', 0)`,
`addGlobalVariable('a_old', 0)`, `addPerDofVariable('y_cur', 0)`,
`addPerDofVariable('y_old', 0)`, then `setPositions(initialPositions)`.
All integrator variables are initialised once, at construction. -/
def initState {ι : Type} (initialPositions : ι → ℝ) : IntegratorState ι :=
  ⟨0, 0, initialPositions, fun _ => 0, fun _ => 0⟩

/-- The sequence of momentum coefficients generated by the rule when the
previous coefficient is seeded at 0 (the construction value of `a_old`):
`aSeq n` is the value held by `a_old` after `n` integrator steps. -/
noncomputable def aSeq : ℕ → ℝ
  | 0 => 0
  | n + 1 => nesterovA (aSeq n)

/-- The per-iteration transition as the spec states it (section 4.2,
steps 1-5): all five expressions are computed from one consistent
pre-step state, so the `x` update reads the previous `a_old` and the
previous `y_old`.  This definition follows the spec's words and exists
to be compared with `nesterovStep`, the embedding of the code. -/
noncomputable def specNesterovStep {ι : Type} (dt : ℝ) (force : (ι → ℝ) → ι → ℝ)
    (s : IntegratorState ι) : IntegratorState ι :=
  let a_cur := nesterovA s.a_old
  let y_cur := fun i => s.x i + dt * force s.x i
  let x := fun i => y_cur i + (s.a_old - 1) / a_cur * (y_cur i - s.y_old i)
  ⟨a_cur, a_cur, x, y_cur, y_cur⟩

/- ### Helper lemmas about the momentum coefficient map -/

lemma nesterovA_arg_nonneg (a : ℝ) : (0 : ℝ) ≤ 1 + 4 * a * a := by nlinarith [sq_nonneg a]

lemma nesterovA_identity (a : ℝ) : nesterovA a ^ 2 - nesterovA a = a ^ 2 := by
  have hs := Real.sq_sqrt (nesterovA_arg_nonneg a)
  unfold nesterovA
  nlinarith [hs]

lemma nesterovA_ge_one (a : ℝ) : 1 ≤ nesterovA a := by
  have hs := Real.sq_sqrt (nesterovA_arg_nonneg a)
  have hnn := Real.sqrt_nonneg (1 + 4 * a * a)
  unfold nesterovA
  nlinarith [sq_nonneg a, sq_nonneg (Real.sqrt (1 + 4 * a * a) - 1)]

lemma nesterovA_zero : nesterovA 0 = 1 := by
  unfold nesterovA
  rw [show (1 : ℝ) + 4 * 0 * 0 = 1 by norm_num, Real.sqrt_one]
  norm_num

lemma nesterovA_gain (a : ℝ) : a + 0.5 < nesterovA a := by
  have hlt : 2 * a < Real.sqrt (1 + 4 * a * a) := by
    have h2 : (2 * a) ^ 2 < 1 + 4 * a * a := by nlinarith
    exact Real.lt_sqrt_of_sq_lt h2
  unfold nesterovA
  nlinarith [hlt]

/-- After `n` integrator steps the global `a_old` holds `aSeq (k + n)`
whenever it started at `aSeq k`. -/
lemma nesterovStepN_a_old {ι : Type} (dt : ℝ) (force : (ι → ℝ) → ι → ℝ) :
    ∀ (n k : ℕ) (s : IntegratorState ι), s.a_old = aSeq k →
      (nesterovStepN dt force n s).a_old = aSeq (k + n) := by
  intro n
  induction n with
  | zero =>
    intro k s h
    rw [Nat.add_zero]
    exact h
  | succ m ih =>
    intro k s h
    have hstep : (nesterovStep dt force s).a_old = aSeq (k + 1) := by
      have hproj : (nesterovStep dt force s).a_old = nesterovA s.a_old := rfl
      rw [hproj, h]
      rfl
    have hrec := ih (k + 1) (nesterovStep dt force s) hstep
    have hidx : k + (m + 1) = k + 1 + m := by omega
    rw [hidx]
    exact hrec

/-- C2: over exact real arithmetic, the momentum coefficients generated by
the rule seeded at `a_old = 0` are the `a_old` values of the integrator
run, and every generated coefficient satisfies the Nesterov recurrence
`a_cur^2 - a_cur = a_old_prev^2` — at every iteration, in particular for
the first 20. -/
theorem c2_momentum_recurrence :
    (∀ (ι : Type) (cfg : ι → ℝ) (dt : ℝ) (force : (ι → ℝ) → ι → ℝ) (n : ℕ),
        (nesterovMinimize dt force n (initState cfg)).a_old = aSeq n) ∧
    (∀ n : ℕ, aSeq (n + 1) ^ 2 - aSeq (n + 1) = aSeq n ^ 2) := by
  constructor
  · intro ι cfg dt force n
    have h0 : (initState cfg).a_old = aSeq 0 := rfl
    simpa using nesterovStepN_a_old dt force n 0 (initState cfg) h0
  · intro n
    simpa [aSeq] using nesterovA_identity (aSeq n)

/-- C10: seeded at `a_old = 0`, the first generated coefficient is 1;
every generated coefficient is at least 1; each step increases the
coefficient by more than 0.5; and the extrapolation coefficient
`(a_cur - 1) / a_cur` of every iteration lies in `[0, 1)`. -/
theorem c10_coefficient_invariants :
    aSeq 1 = 1 ∧
    (∀ n : ℕ, 1 ≤ aSeq (n + 1)) ∧
    (∀ n : ℕ, aSeq n + 0.5 < aSeq (n + 1)) ∧
    (∀ n : ℕ, 0 ≤ (aSeq (n + 1) - 1) / aSeq (n + 1) ∧
      (aSeq (n + 1) - 1) / aSeq (n + 1) < 1) := by
  refine ⟨by simp [aSeq, nesterovA_zero], fun n => ?_, fun n => ?_, fun n => ?_⟩
  · simpa [aSeq] using nesterovA_ge_one (aSeq n)
  · simpa [aSeq] using nesterovA_gain (aSeq n)
  · have h1 : 1 ≤ aSeq (n + 1) := by simpa [aSeq] using nesterovA_ge_one (aSeq n)
    have hpos : 0 < aSeq (n + 1) := by linarith
    constructor
    · exact div_nonneg (by linarith) (by linarith)
    · rw [div_lt_one hpos]
      linarith

/-- C9: in the implemented integrator program, by the time the `x` update
runs, `y_old` has just been overwritten with `y_cur`, so the extrapolation
term vanishes and the implemented per-iteration update is exactly plain
fixed-step gradient descent `x_next = x + dt * f`. -/
theorem c9_degenerates_to_gradient_descent :
    ∀ (ι : Type) (dt : ℝ) (force : (ι → ℝ) → ι → ℝ) (s : IntegratorState ι),
      (nesterovStep dt force s).y_old = (nesterovStep dt force s).y_cur ∧
      (nesterovStep dt force s).x = fun i => s.x i + dt * force s.x i := by
  intro ι dt force s
  constructor
  · rfl
  · funext i
    have hx : (nesterovStep dt force s).x i =
        (s.x i + dt * force s.x i) + (nesterovA s.a_old - 1) / nesterovA s.a_old *
          ((s.x i + dt * force s.x i) - (s.x i + dt * force s.x i)) := rfl
    rw [hx]
    ring

/-- C1: the code evaluated at a concrete failing state.  With
`a_old = 2`, `y_old = 0`, `x = 2`, zero force and `dt = 1` (one degree of
freedom), the implemented update leaves the position at `2` — the momentum
term reads the just-overwritten `a_old` and `y_old` and vanishes — whereas
the claimed update, which reads the pre-step snapshots, moves it to
`2 + 2 * (2 - 1) / a_cur ≠ 2`. -/
theorem c1_update_order_divergence :
    (nesterovStep 1 (fun _ _ => 0)
      (⟨0, 2, fun _ => 2, fun _ => 0, fun _ => 0⟩ : IntegratorState Unit)).x () = 2 ∧
    (specNesterovStep 1 (fun _ _ => 0)
      (⟨0, 2, fun _ => 2, fun _ => 0, fun _ => 0⟩ : IntegratorState Unit)).x () ≠ 2 := by
  constructor
  · have hx : (nesterovStep 1 (fun _ _ => 0)
        (⟨0, 2, fun _ => 2, fun _ => 0, fun _ => 0⟩ : IntegratorState Unit)).x () =
        (2 + 1 * 0) + (nesterovA 2 - 1) / nesterovA 2 * ((2 + 1 * 0) - (2 + 1 * 0)) := rfl
    rw [hx]
    ring
  · have hx : (specNesterovStep 1 (fun _ _ => 0)
        (⟨0, 2, fun _ => 2, fun _ => 0, fun _ => 0⟩ : IntegratorState Unit)).x () =
        (2 + 1 * 0) + (2 - 1) / nesterovA 2 * ((2 + 1 * 0) - 0) := rfl
    rw [hx]
    have hA : 1 ≤ nesterovA 2 := nesterovA_ge_one 2
    have hpos : 0 < (2 - 1) / nesterovA 2 * ((2 + 1 * 0) - 0) := by
      apply mul_pos
      · apply div_pos <;> norm_num
        linarith
      · norm_num
    intro hcontra
    nlinarith [hpos]

/-- C3 counterexample: the integrator variables are initialised once, in
`__init__`, and `minimize` performs no reset.  Concretely, constructing
with positions all `5` and running one `minimize` iteration leaves
`a_old = 1`, so a second `minimize` call starts from `a_old ≠ 0`; and at
construction `y_old` is `0`, not the configuration. -/
theorem c3_no_reset_counterexample :
    (nesterovMinimize 1 (fun _ _ => 0) 1 (initState (fun _ : Unit => 5))).a_old ≠ 0 ∧
    (initState (fun _ : Unit => (5 : ℝ))).y_old () ≠ (initState (fun _ : Unit => (5 : ℝ))).x () := by
  constructor
  · have h : (nesterovMinimize 1 (fun _ _ => 0) 1 (initState (fun _ : Unit => 5))).a_old =
        nesterovA 0 := rfl
    rw [h, nesterovA_zero]
    norm_num
  · have h0 : (initState (fun _ : Unit => (5 : ℝ))).y_old () = 0 := rfl
    have h5 : (initState (fun _ : Unit => (5 : ℝ))).x () = 5 := rfl
    rw [h0, h5]
    norm_num

/-- Running `m` iterations and then `n` more is the same as running
`m + n`: `minimize` keeps no per-run state and performs no reset. -/
lemma nesterovStepN_add {ι : Type} (dt : ℝ) (force : (ι → ℝ) → ι → ℝ) :
    ∀ (m n : ℕ) (s : IntegratorState ι),
      nesterovStepN dt force n (nesterovStepN dt force m s) =
        nesterovStepN dt force (m + n) s := by
  intro m
  induction m with
  | zero =>
    intro n s
    rw [Nat.zero_add]
    rfl
  | succ p ih =>
    intro n s
    have hidx : p + 1 + n = p + n + 1 := by omega
    rw [hidx]
    exact ih n (nesterovStep dt force s)

/-- C3 amended: the momentum state is initialised once at construction
(`a_cur = a_old = 0`, `y_cur = y_old = 0` — `y_old` is zero, not the
configuration), and `minimize` performs no reset, so a second `minimize`
call continues exactly where the first stopped: `n` iterations after `m`
iterations equal `m + n` iterations from the constructed state. -/
theorem c3_init_once_no_reset :
    (∀ (ι : Type) (cfg : ι → ℝ),
        (initState cfg).a_cur = 0 ∧ (initState cfg).a_old = 0 ∧
        (initState cfg).y_cur = (fun _ => 0) ∧ (initState cfg).y_old = (fun _ => 0) ∧
        (initState cfg).x = cfg) ∧
    (∀ (ι : Type) (dt : ℝ) (force : (ι → ℝ) → ι → ℝ) (m n : ℕ) (s : IntegratorState ι),
        nesterovMinimize dt force n (nesterovMinimize dt force m s) =
          nesterovMinimize dt force (m + n) s) := by
  constructor
  · intro ι cfg
    exact ⟨rfl, rfl, rfl, rfl, rfl⟩
  · intro ι dt force m n s
    exact nesterovStepN_add dt force m n s

/-- C4: `minimize` is exactly the `numIterations`-fold iterate of the
single integrator step — no convergence test, no early exit. -/
theorem c4_exact_iteration_count :
    ∀ (ι : Type) (dt : ℝ) (force : (ι → ℝ) → ι → ℝ) (n : ℕ) (s : IntegratorState ι),
      nesterovMinimize dt force n s = (nesterovStep dt force)^[n] s := by
  intro ι dt force n
  induction n with
  | zero =>
    intro s
    rfl
  | succ m ih =>
    intro s
    have h1 : nesterovMinimize dt force (m + 1) s =
        nesterovMinimize dt force m (nesterovStep dt force s) := rfl
    rw [h1, ih (nesterovStep dt force s), Function.iterate_succ_apply]

/-- Modelled from the spec: section 4.3 — the baseline delegates to the
external `mm.LocalEnergyMinimizer.minimize(context, tolerance,
maxIterations)`, whose code is not part of this repository.  The internal
quasi-Newton step and the tolerance-based convergence test are opaque
black boxes, so they are parameters of the model.  The loop stops when
the convergence test succeeds or the iteration budget runs out. -/
def lbfgsLoop {α : Type} (innerStep : α → α) (converged : α → Bool) :
    ℕ → α → α
  | 0, x => x
  | n + 1, x => if converged x then x else lbfgsLoop innerStep converged n (innerStep x)

/-- Modelled from the spec: section 4.3 — `maxIterations` of zero means
"no cap, run to internal convergence"; `fuel` bounds the uncapped run of
the model. -/
def localEnergyMinimize {α : Type} (innerStep : α → α) (converged : α → Bool)
    (fuel maxIterations : ℕ) (x : α) : α :=
  lbfgsLoop innerStep converged (if maxIterations = 0 then fuel else maxIterations) x

/-- Embedding of `BFGSMinimizer.minimize`: the body is
`mm.LocalEnergyMinimizer.minimize(self.context, self.tolerance,
self.maxIterations)` with the stored tolerance absorbed into the opaque
convergence test; the stored `maxIterations` defaults to 0. -/
def bfgsMinimize {α : Type} (innerStep : α → α) (converged : α → Bool)
    (fuel maxIterations : ℕ) (x : α) : α :=
  localEnergyMinimize innerStep converged fuel maxIterations x

/-- C5 counterexample: for the baseline minimizer an iteration cap of 0
does not mean "do nothing" — it means "no cap, run to internal
convergence".  With internal step `q / 2`, convergence test `q ≤ 1` and
start position `4`, the cap-0 run moves the position to `1 ≠ 4`. -/
theorem c5_zero_cap_counterexample :
    bfgsMinimize (fun q : ℚ => q / 2) (fun q => decide (q ≤ 1)) 3 0 4 ≠ 4 := by
  have h : bfgsMinimize (fun q : ℚ => q / 2) (fun q => decide (q ≤ 1)) 3 0 4 = 1 := by
    norm_num [bfgsMinimize, localEnergyMinimize, lbfgsLoop]
  rw [h]
  norm_num

/-- C5 amended: the Nesterov minimizer with iteration count 0 performs no
mutation at all — positions, auxiliary buffers and energy are untouched —
while for the baseline a `maxIterations` of 0 selects the uncapped
run-to-convergence mode, which may mutate positions. -/
theorem c5_zero_iterations :
    (∀ (ι : Type) (dt : ℝ) (force : (ι → ℝ) → ι → ℝ) (E : (ι → ℝ) → ℝ)
        (s : IntegratorState ι),
        nesterovMinimize dt force 0 s = s ∧
        E ((nesterovMinimize dt force 0 s).x) = E s.x) ∧
    (∀ (α : Type) (innerStep : α → α) (converged : α → Bool) (fuel : ℕ) (x : α),
        bfgsMinimize innerStep converged fuel 0 x = lbfgsLoop innerStep converged fuel x) := by
  constructor
  · intro ι dt force E s
    exact ⟨rfl, rfl⟩
  · intro α innerStep converged fuel x
    rfl

/-- The error taxonomy of the spec (section 7). -/
inductive MinimizeError
  | DimensionMismatch
  | NonFiniteValue
  deriving DecidableEq

/-- Modelled from the spec: section 4.1 — the notebook's `minimize`
delegates to the opaque OpenMM integrator and contains no dimension
check of its own; the IterativeMinimizer loop of the spec, which
queries the EnergyModel, fails with `DimensionMismatch` when the
returned force vector does not match the particle count (before any
mutation of that iteration), and otherwise hands forces and
configuration to the update rule, is not in the repository source.
The result pairs the configuration buffer after the call with either
the fresh final energy or the error. -/
def iterativeMinimize (model : List ℝ → ℝ × List ℝ)
    (rule : List ℝ → List ℝ → List ℝ) :
    ℕ → List ℝ → List ℝ × Except MinimizeError ℝ
  | 0, cfg => (cfg, Except.ok (model cfg).1)
  | n + 1, cfg =>
    let r := model cfg
    if r.2.length = cfg.length then iterativeMinimize model rule n (rule cfg r.2)
    else (cfg, Except.error MinimizeError.DimensionMismatch)

/-- C6: if the EnergyModel returns a force vector whose length differs
from the particle count of the configuration, the minimize loop fails
with `DimensionMismatch` and the configuration buffer is returned
unmodified. -/
theorem c6_dimension_mismatch (model : List ℝ → ℝ × List ℝ)
    (rule : List ℝ → List ℝ → List ℝ) (n : ℕ) (cfg : List ℝ)
    (hn : 1 ≤ n) (hlen : (model cfg).2.length ≠ cfg.length) :
    iterativeMinimize model rule n cfg =
      (cfg, Except.error MinimizeError.DimensionMismatch) := by
  cases n with
  | zero => exact absurd hn (by omega)
  | succ m =>
    have hunfold : iterativeMinimize model rule (m + 1) cfg =
        if (model cfg).2.length = cfg.length then
          iterativeMinimize model rule m (rule cfg (model cfg).2)
        else (cfg, Except.error MinimizeError.DimensionMismatch) := rfl
    rw [hunfold, if_neg hlen]

/-- C6 witness: a stub EnergyModel returning a 2-vector of forces on a
3-particle configuration triggers `DimensionMismatch` and leaves the
buffer `[1, 2, 3]` unmodified. -/
theorem c6_dimension_mismatch_witness :
    1 ≤ 1 ∧
    ((fun _ : List ℝ => ((0 : ℝ), [(0 : ℝ), 0])) [1, 2, 3]).2.length ≠
      ([1, 2, 3] : List ℝ).length ∧
    iterativeMinimize (fun _ : List ℝ => ((0 : ℝ), [(0 : ℝ), 0])) (fun c _ => c) 1 [1, 2, 3] =
      ([1, 2, 3], Except.error MinimizeError.DimensionMismatch) :=
  ⟨by decide, by decide,
    c6_dimension_mismatch (fun _ : List ℝ => ((0 : ℝ), [(0 : ℝ), 0])) (fun c _ => c)
      1 [1, 2, 3] (by decide) (by decide)⟩

/-- What `BaseMinimizer.benchmark` records: the energy before, the energy
after, and the state left by `minimize`. -/
structure BenchmarkOutcome (ι : Type) where
  initialEnergy : ℝ
  finalEnergy : ℝ
  finalState : IntegratorState ι

/-- Embedding of `BaseMinimizer.benchmark` without the wall-clock reading: it queries
the context for the potential energy, runs `self.minimize()`, then
queries the context again — a fresh evaluation at whatever positions the
minimizer left behind. -/
def benchmark {ι : Type} (E : (ι → ℝ) → ℝ)
    (minimizeFn : IntegratorState ι → IntegratorState ι)
    (s : IntegratorState ι) : BenchmarkOutcome ι :=
  let initialEnergy := E s.x
  let s2 := minimizeFn s
  let finalEnergy := E s2.x
  ⟨initialEnergy, finalEnergy, s2⟩

/-- C7: the final energy reported by `benchmark` is the energy model
evaluated afresh at the configuration present when the minimize loop
ends; the integrator state carries no cached energy that could be
reported instead. -/
theorem c7_fresh_final_energy :
    ∀ (ι : Type) (E : (ι → ℝ) → ℝ) (dt : ℝ) (force : (ι → ℝ) → ι → ℝ)
      (n : ℕ) (s : IntegratorState ι),
      (benchmark E (nesterovMinimize dt force n) s).finalEnergy =
        E ((nesterovMinimize dt force n s).x) ∧
      (benchmark E (nesterovMinimize dt force n) s).finalState =
        nesterovMinimize dt force n s ∧
      (benchmark E (nesterovMinimize dt force n) s).initialEnergy = E s.x := by
  intro ι E dt force n s
  exact ⟨rfl, rfl, rfl⟩

/- ### The benchmark report string (`BaseMinimizer.benchmark`) -/

/-- Builds `n` copies of the string `c` in a row (used for the width and
zero padding of Python format specifiers). -/
def repeatStr : ℕ → String → String
  | 0, _ => ""
  | n + 1, c => c ++ repeatStr n c

/-- Right alignment to width `w` with spaces, as in `{:>12.4f}`. -/
def padLeft (w : ℕ) (s : String) : String := repeatStr (w - s.length) " " ++ s

/-- Zero padding of the fractional digits to width 4. -/
def padZeros4 (s : String) : String := repeatStr (4 - s.length) "0" ++ s

/-- Fixed-point rendering with 4 decimal places, the `.4f` of the code,
over exact rationals: round to the nearest 1/10000, then print sign,
integer part, a dot and exactly four fractional digits. -/
def formatFixed4 (q : ℚ) : String :=
  let n : ℤ := round (q * 10000)
  (if n < 0 then "-" else "") ++ toString (n.natAbs / 10000) ++ "." ++
    padZeros4 (toString (n.natAbs % 10000))

/-- The `details` argument of the report: `'device = ' + deviceNames[0]`
when the platform reports any device name, else the empty string. -/
def detailsLine : List String → String
  | [] => ""
  | d :: _ => "device = " ++ d

/-- The line separator `os.linesep`, modelled as a newline. -/
def lineSep : String := "\n"

/-- Line 1 of `reportLines`:
`'{name} with {platform} platform and {numParticles:d} particles'`. -/
def reportLine1 (name platform : String) (numParticles : ℕ) : String :=
  name ++ " with " ++ platform ++ " platform and " ++ toString numParticles ++ " particles"

/-- Line 2 of `reportLines`: `'  ({details})'`. -/
def reportLine2 (details : String) : String := "  (" ++ details ++ ")"

/-- Line 3 of `reportLines`:
`'  initial energy = {initial:>{width}.4f} kJ/mol'` with `width = 12`. -/
def reportLine3 (initial : ℚ) : String :=
  "  initial energy = " ++ padLeft 12 (formatFixed4 initial) ++ " kJ/mol"

/-- Line 4 of `reportLines`:
`'  final energy   = {final:>{width}.4f} kJ/mol'` with `width = 12`. -/
def reportLine4 (finalE : ℚ) : String :=
  "  final energy   = " ++ padLeft 12 (formatFixed4 finalE) ++ " kJ/mol"

/-- Line 5 of `reportLines`: `'  elapsed time   = {time:.4f} s'`. -/
def reportLine5 (elapsed : ℚ) : String :=
  "  elapsed time   = " ++ formatFixed4 elapsed ++ " s"

/-- The report built by `BaseMinimizer.benchmark`: the six `reportLines`
(the sixth is empty) joined by `os.linesep` and filled in with the class
name, platform name, particle count, device details, the two energies and
the elapsed time. -/
def benchmarkReport (name platform : String) (numParticles : ℕ)
    (deviceNames : List String) (initial finalE elapsed : ℚ) : String :=
  reportLine1 name platform numParticles ++ lineSep ++
    reportLine2 (detailsLine deviceNames) ++ lineSep ++
    reportLine3 initial ++ lineSep ++
    reportLine4 finalE ++ lineSep ++
    reportLine5 elapsed ++ lineSep

/-- Predicate: `s` occurs contiguously inside `r`. -/
def containsStr (s r : String) : Prop := ∃ p q : String, r = p ++ (s ++ q)

lemma containsStr_self (s : String) : containsStr s s :=
  ⟨"", "", by simp⟩

lemma containsStr_left {s x : String} (h : containsStr s x) (y : String) :
    containsStr s (x ++ y) := by
  obtain ⟨p, q, rfl⟩ := h
  exact ⟨p, q ++ y, by simp [String.append_assoc]⟩

lemma containsStr_right {s x : String} (y : String) (h : containsStr s x) :
    containsStr s (y ++ x) := by
  obtain ⟨p, q, rfl⟩ := h
  exact ⟨y ++ p, q, by simp [String.append_assoc]⟩

lemma containsStr_trans {s m r : String} (h1 : containsStr s m) (h2 : containsStr m r) :
    containsStr s r := by
  obtain ⟨p, q, rfl⟩ := h1
  obtain ⟨u, v, rfl⟩ := h2
  exact ⟨u ++ p, q ++ v, by simp [String.append_assoc]⟩

/-- C8: the benchmark report is one block that contains the minimizer
name, the platform name, the particle count, the (optional) device
details, the initial and final energies rendered to 4 decimal places and
the elapsed seconds rendered to 4 decimal places. -/
theorem c8_report_contents :
    ∀ (name platform : String) (numParticles : ℕ) (deviceNames : List String)
      (initial finalE elapsed : ℚ),
      containsStr name
        (benchmarkReport name platform numParticles deviceNames initial finalE elapsed) ∧
      containsStr platform
        (benchmarkReport name platform numParticles deviceNames initial finalE elapsed) ∧
      containsStr (toString numParticles)
        (benchmarkReport name platform numParticles deviceNames initial finalE elapsed) ∧
      containsStr (detailsLine deviceNames)
        (benchmarkReport name platform numParticles deviceNames initial finalE elapsed) ∧
      containsStr (formatFixed4 initial)
        (benchmarkReport name platform numParticles deviceNames initial finalE elapsed) ∧
      containsStr (formatFixed4 finalE)
        (benchmarkReport name platform numParticles deviceNames initial finalE elapsed) ∧
      containsStr (formatFixed4 elapsed)
        (benchmarkReport name platform numParticles deviceNames initial finalE elapsed) := by
  intro name platform numParticles deviceNames initial finalE elapsed
  have hL1 : containsStr (reportLine1 name platform numParticles)
      (benchmarkReport name platform numParticles deviceNames initial finalE elapsed) :=
    containsStr_left (containsStr_left (containsStr_left (containsStr_left (containsStr_left
      (containsStr_left (containsStr_left (containsStr_left (containsStr_left
        (containsStr_self _) _) _) _) _) _) _) _) _) _
  have hL2 : containsStr (reportLine2 (detailsLine deviceNames))
      (benchmarkReport name platform numParticles deviceNames initial finalE elapsed) :=
    containsStr_left (containsStr_left (containsStr_left (containsStr_left (containsStr_left
      (containsStr_left (containsStr_left (containsStr_right _
        (containsStr_self _)) _) _) _) _) _) _) _
  have hL3 : containsStr (reportLine3 initial)
      (benchmarkReport name platform numParticles deviceNames initial finalE elapsed) :=
    containsStr_left (containsStr_left (containsStr_left (containsStr_left (containsStr_left
      (containsStr_right _ (containsStr_self _)) _) _) _) _) _
  have hL4 : containsStr (reportLine4 finalE)
      (benchmarkReport name platform numParticles deviceNames initial finalE elapsed) :=
    containsStr_left (containsStr_left (containsStr_left
      (containsStr_right _ (containsStr_self _)) _) _) _
  have hL5 : containsStr (reportLine5 elapsed)
      (benchmarkReport name platform numParticles deviceNames initial finalE elapsed) :=
    containsStr_left (containsStr_right _ (containsStr_self _)) _
  refine ⟨?_, ?_, ?_, ?_, ?_, ?_, ?_⟩
  · exact containsStr_trans
      (containsStr_left (containsStr_left (containsStr_left (containsStr_left
        (containsStr_left (containsStr_self _) _) _) _) _) _) hL1
  · exact containsStr_trans
      (containsStr_left (containsStr_left (containsStr_left
        (containsStr_right _ (containsStr_self _)) _) _) _) hL1
  · exact containsStr_trans
      (containsStr_left (containsStr_right _ (containsStr_self _)) _) hL1
  · exact containsStr_trans
      (containsStr_left (containsStr_right _ (containsStr_self _)) _) hL2
  · exact containsStr_trans
      (containsStr_left (containsStr_right _ (containsStr_right _ (containsStr_self _))) _) hL3
  · exact containsStr_trans
      (containsStr_left (containsStr_right _ (containsStr_right _ (containsStr_self _))) _) hL4
  · exact containsStr_trans
      (containsStr_left (containsStr_right _ (containsStr_self _)) _) hL5
